import Mathlib

/-!
Shallow embedding of the MIPS sub-assembler in `src/pa1.c`.

The core of the program is `translate(nr_tokens, tokens)`: it classifies
`tokens[0]` against three static mnemonic tables (`detectType`), resolves
register-name operands against a 32-entry register table (`getRegisterNum`),
parses numeric operands with `strtol(_, NULL, 0)`, and packs the fields into a
32-bit word.  All C `int` values that can be negative are modelled as `Int`;
the final conversion of the packed `int` expression to the `unsigned int`
return value is modelled by reducing modulo `2 ^ 32`.  The integer-literal
predicates (`isDecLit`, `isHexLit`) state the claims' "decimal or 0x-prefixed
hex literal" side conditions independently of the `strtol` model, so that the
parse agreement is itself proved.
-/

namespace PA1

/-- The `registers[32]` table from the source, in index order.  Note that the
source table really contains `"k1"` at index 26 and `"k2"` at index 27. -/
def registers : List String :=
  ["zero", "at", "v0", "v1", "a0", "a1", "a2", "a3",
   "t0", "t1", "t2", "t3", "t4", "t5", "t6", "t7",
   "s0", "s1", "s2", "s3", "s4", "s5", "s6", "s7",
   "t8", "t9", "k1", "k2", "gp", "sp", "fp", "ra"]

/-- The `r_instructions[]` table (R-format mnemonics). -/
def r_instructions : List String := ["add", "sub", "and", "or", "nor"]

/-- The `r_funct[]` table, parallel to `r_instructions`. -/
def r_funct : List Nat := [0x20, 0x22, 0x24, 0x25, 0x27]

/-- The `r_shift_instructions[]` table (R-shift mnemonics). -/
def r_shift_instructions : List String := ["sll", "srl", "sra"]

/-- The `r_shift_funct[]` table, parallel to `r_shift_instructions`. -/
def r_shift_funct : List Nat := [0x00, 0x02, 0x03]

/-- The `i_instructions[]` table (I-format mnemonics). -/
def i_instructions : List String := ["addi", "andi", "ori", "lw", "sw", "beq", "bne"]

/-- The `i_opcodes[]` table, parallel to `i_instructions`. -/
def i_opcodes : List Nat := [0x08, 0x0c, 0x0d, 0x23, 0x2b, 0x04, 0x05]

/-- The C `InstructionInfo` struct: `type` is `-1` (unknown), `0` (R-format),
`1` (R-shift) or `2` (I-format); `opcode` holds the funct code for R/R-shift
and the opcode for I-format.  The source leaves `opcode` uninitialised when
`type = -1`; that path never reads it, and the model uses `0` there. -/
structure InstructionInfo where
  type : Int
  opcode : Nat
  deriving DecidableEq, Repr

/-- One scanning loop of `detectType`: walk a mnemonic table and its parallel
code table, returning the code at the first index whose name matches. -/
def scanTable (token : String) : List String → List Nat → Option Nat
  | n :: ns, c :: cs => if n = token then some c else scanTable token ns cs
  | _, _ => none

/-- `detectType` from the source: try the R-format, R-shift and I-format
tables in that order; `type = -1` when no table contains the token. -/
def detectType (token : String) : InstructionInfo :=
  match scanTable token r_instructions r_funct with
  | some c => ⟨0, c⟩
  | none =>
    match scanTable token r_shift_instructions r_shift_funct with
    | some c => ⟨1, c⟩
    | none =>
      match scanTable token i_instructions i_opcodes with
      | some c => ⟨2, c⟩
      | none => ⟨-1, 0⟩

/-- The loop body of `getRegisterNum`: scan `rs` starting at index `i`,
returning the index of the first match and `0` if the end is reached. -/
def regScan (token : String) : Nat → List String → Nat
  | _, [] => 0
  | i, r :: rs => if r = token then i else regScan token (i + 1) rs

/-- `getRegisterNum` from the source: linear scan of `registers`; returns the
matching index, and silently returns `0` when no entry matches. -/
def getRegisterNum (token : String) : Nat :=
  regScan token 0 registers

/-- C `isspace` on the characters relevant to `strtol` leading-space
skipping: space (32) and the control characters 9–13. -/
def isSpaceC (c : Char) : Bool :=
  c.toNat = 32 || (9 ≤ c.toNat && c.toNat ≤ 13)

/-- Digit recognition of `strtol`: value of `c` as a digit in `base`
(`0`–`9`, `a`–`z`, `A`–`Z`), or `none` when `c` is no digit of that base. -/
def digitVal (base : Nat) (c : Char) : Option Nat :=
  let v : Nat :=
    if 48 ≤ c.toNat ∧ c.toNat ≤ 57 then c.toNat - 48
    else if 97 ≤ c.toNat ∧ c.toNat ≤ 122 then c.toNat - 87
    else if 65 ≤ c.toNat ∧ c.toNat ≤ 90 then c.toNat - 55
    else 99
  if v < base then some v else none

/-- The digit-accumulation loop of `strtol`: consume the longest prefix of
digits of `base`, accumulating `base * acc + d`; stop at the first
non-digit.  (Overflow clamping to `LONG_MAX` is not modelled; every claim
stays far below it.) -/
def parseDigits (base : Nat) : Nat → List Char → Nat
  | acc, [] => acc
  | acc, c :: cs =>
    match digitVal base c with
    | some d => parseDigits base (base * acc + d) cs
    | none => acc

/-- Base detection and magnitude parsing of `strtol(_, NULL, 0)` after the
optional sign: a `0x`/`0X` prefix followed by a hex digit selects base 16, a
bare leading `0` selects base 8, anything else base 10. -/
def strtolMag : List Char → Nat
  | [] => 0
  | c :: t =>
    if c = '0' then
      match t with
      | [] => 0
      | x :: t2 =>
        if x = 'x' ∨ x = 'X' then
          match t2 with
          | [] => 0
          | c2 :: _ => if (digitVal 16 c2).isSome then parseDigits 16 0 t2 else 0
        else parseDigits 8 0 t
    else parseDigits 10 0 (c :: t)

/-- `(int)strtol(token, NULL, 0)` as used by the source: skip leading spaces,
read an optional sign, then parse the magnitude with automatic base
detection; `0` when no digits can be parsed. -/
def strtol0 (s : String) : Int :=
  match s.data.dropWhile isSpaceC with
  | [] => 0
  | c :: t =>
    if c = '-' then -(strtolMag t : Int)
    else if c = '+' then (strtolMag t : Int)
    else (strtolMag (c :: t) : Int)

/-- The 32-bit two's-complement bit pattern of a C `int` value, as a natural
number: the nonnegative residue modulo `2 ^ 32`. -/
def pattern32 (i : Int) : Nat :=
  ((i % (2 ^ 32 : Int))).toNat

/-- `translate(nr_tokens, tokens)` from the source.  The token array is
modelled as a function `Nat → String` because the C code indexes
`tokens[1..3]` without ever consulting `nr_tokens`.  The `& 0xFFFF` applied
to a negative 32-bit `int` yields its low 16 bits, i.e. the nonnegative
residue modulo `65536`. -/
def translate (nr_tokens : Nat) (tokens : Nat → String) : Nat :=
  let info := detectType (tokens 0)
  let code : Nat :=
    if info.type = 0 then
      let rd := getRegisterNum (tokens 1)
      let rs := getRegisterNum (tokens 2)
      let rt := getRegisterNum (tokens 3)
      info.opcode ||| (rd <<< 11) ||| (rt <<< 16) ||| (rs <<< 21)
    else if info.type = 1 then
      let rd := getRegisterNum (tokens 1)
      let rt := getRegisterNum (tokens 2)
      let shamt := strtol0 (tokens 3)
      info.opcode ||| ((pattern32 shamt) <<< 6) ||| (rd <<< 11) ||| (rt <<< 16)
    else if info.type = 2 then
      let rt := getRegisterNum (tokens 1)
      let rs :=
        if info.opcode = 0x23 ∨ info.opcode = 0x2b then getRegisterNum (tokens 3)
        else getRegisterNum (tokens 2)
      let immediate :=
        if info.opcode = 0x23 ∨ info.opcode = 0x2b then strtol0 (tokens 2)
        else strtol0 (tokens 3)
      let immediate := if immediate < 0 then immediate % 65536 else immediate
      (pattern32 immediate) ||| (rt <<< 16) ||| (rs <<< 21) ||| (info.opcode <<< 26)
    else 0
  code % 2 ^ 32

/-- `translate` applied to a finite token list, padding out-of-range reads
with the empty string (every claim about token lists stays in range). -/
def translateL (ts : List String) : Nat :=
  translate ts.length (fun i => ts.getD i "")

/-- A decimal digit character (`'0'`–`'9'`). -/
def isDecDigit (c : Char) : Prop := 48 ≤ c.toNat ∧ c.toNat ≤ 57

instance (c : Char) : Decidable (isDecDigit c) := by unfold isDecDigit; infer_instance

/-- The standard positional value of a decimal digit string. -/
def decDigitsVal (cs : List Char) : Nat :=
  cs.foldl (fun a c => 10 * a + (c.toNat - 48)) 0

/-- A decimal integer literal: nonempty, all decimal digits, and without a
redundant leading zero (a literal starting in `0` is an octal literal in the
source's parsing rules, so only `"0"` itself is a decimal literal). -/
def isDecLit (s : String) : Prop :=
  s.data ≠ [] ∧ (∀ c ∈ s.data, isDecDigit c) ∧ (s.data.head? = some '0' → s.data = ['0'])

instance (s : String) : Decidable (isDecLit s) := by unfold isDecLit; infer_instance

/-- A hexadecimal digit character (`0`–`9`, `a`–`f`, `A`–`F`). -/
def isHexDigitP (c : Char) : Prop :=
  (48 ≤ c.toNat ∧ c.toNat ≤ 57) ∨ (97 ≤ c.toNat ∧ c.toNat ≤ 102) ∨
    (65 ≤ c.toNat ∧ c.toNat ≤ 70)

instance (c : Char) : Decidable (isHexDigitP c) := by unfold isHexDigitP; infer_instance

/-- The standard value of a hexadecimal digit character. -/
def hexDigitVal (c : Char) : Nat :=
  if c.toNat ≤ 57 then c.toNat - 48
  else if 97 ≤ c.toNat then c.toNat - 87
  else c.toNat - 55

/-- The standard positional value of a hexadecimal digit string. -/
def hexDigitsVal (cs : List Char) : Nat :=
  cs.foldl (fun a c => 16 * a + hexDigitVal c) 0

/-- A `0x`-prefixed hexadecimal integer literal. -/
def isHexLit (s : String) : Prop :=
  ∃ ds, s.data = '0' :: 'x' :: ds ∧ ds ≠ [] ∧ ∀ c ∈ ds, isHexDigitP c

/-- The value of a `0x`-prefixed hexadecimal literal. -/
def hexLitVal (s : String) : Nat := hexDigitsVal (s.data.drop 2)

/-- Bitwise OR commutes with right shift. -/
theorem or_shiftRight (a b k : Nat) : (a ||| b) >>> k = (a >>> k) ||| (b >>> k) :=
  Nat.eq_of_testBit_eq (by simp)

/-- Bitwise OR commutes with truncation to the low `n` bits. -/
theorem or_mod_two_pow (a b n : Nat) : (a ||| b) % 2 ^ n = (a % 2 ^ n) ||| (b % 2 ^ n) :=
  Nat.eq_of_testBit_eq (by simp [Bool.and_or_distrib_left])

/-- `regScan` either falls through to `0` or returns an index in scanning range. -/
theorem regScan_cases (token : String) :
    ∀ (rs : List String) (i : Nat), regScan token i rs = 0 ∨ regScan token i rs < i + rs.length := by
  intro rs
  induction rs with
  | nil => intro i; left; rfl
  | cons r rs ih =>
    intro i
    by_cases h : r = token
    · right; simp [regScan, h]
    · have hstep : regScan token i (r :: rs) = regScan token (i + 1) rs := by
        simp [regScan, h]
      rcases ih (i + 1) with h0 | hlt
      · left; rw [hstep]; exact h0
      · right; rw [hstep]; simp only [List.length_cons]; omega

/-- Every value `getRegisterNum` can return is a 5-bit register index. -/
theorem getRegisterNum_lt (t : String) : getRegisterNum t < 32 := by
  have h := regScan_cases t registers 0
  have hlen : registers.length = 32 := by decide
  unfold getRegisterNum
  rcases h with h | h <;> omega

/-- Evaluation of `translate` on an R-format line, with the registers kept
symbolic. -/
theorem translateL_r (mn t1 t2 t3 : String) (c : Nat) (h : detectType mn = ⟨0, c⟩) :
    translateL [mn, t1, t2, t3] =
      (c ||| (getRegisterNum t1 <<< 11) ||| (getRegisterNum t3 <<< 16) |||
        (getRegisterNum t2 <<< 21)) % 2 ^ 32 := by
  simp [translateL, translate, h]

/-- Evaluation of `translate` on an R-shift line. -/
theorem translateL_shift (mn t1 t2 sh : String) (c : Nat) (h : detectType mn = ⟨1, c⟩) :
    translateL [mn, t1, t2, sh] =
      (c ||| ((pattern32 (strtol0 sh)) <<< 6) ||| (getRegisterNum t1 <<< 11) |||
        (getRegisterNum t2 <<< 16)) % 2 ^ 32 := by
  simp [translateL, translate, h]

/-- Evaluation of `translate` on a memory-op I-format line (`lw`/`sw` token
order: register, immediate, base register). -/
theorem translateL_i_mem (mn trt timm trs : String) (c : Nat)
    (h : detectType mn = ⟨2, c⟩) (hc : c = 0x23 ∨ c = 0x2b) :
    translateL [mn, trt, timm, trs] =
      ((pattern32 (if strtol0 timm < 0 then strtol0 timm % 65536 else strtol0 timm)) |||
        (getRegisterNum trt <<< 16) ||| (getRegisterNum trs <<< 21) ||| (c <<< 26)) % 2 ^ 32 := by
  simp [translateL, translate, h, hc]

/-- Evaluation of `translate` on a non-memory I-format line (token order:
register, register, immediate). -/
theorem translateL_i_alu (mn trt trs timm : String) (c : Nat)
    (h : detectType mn = ⟨2, c⟩) (hc : ¬(c = 0x23 ∨ c = 0x2b)) :
    translateL [mn, trt, trs, timm] =
      ((pattern32 (if strtol0 timm < 0 then strtol0 timm % 65536 else strtol0 timm)) |||
        (getRegisterNum trt <<< 16) ||| (getRegisterNum trs <<< 21) ||| (c <<< 26)) % 2 ^ 32 := by
  simp [translateL, translate, h, hc]

/-- A shifted field `x <<< k` with `x < 2 ^ w` stays below `2 ^ (w + k)`,
hence below any `2 ^ n` with `w + k ≤ n`. -/
theorem shiftLeft_lt_two_pow {x w k n : Nat} (hx : x < 2 ^ w) (hn : w + k ≤ n) :
    x <<< k < 2 ^ n := by
  rw [Nat.shiftLeft_eq]
  calc x * 2 ^ k < 2 ^ w * 2 ^ k :=
        Nat.mul_lt_mul_of_pos_right hx (Nat.pos_pow_of_pos k (by norm_num))
    _ = 2 ^ (w + k) := by rw [Nat.pow_add]
    _ ≤ 2 ^ n := Nat.pow_le_pow_right (by norm_num) hn

/-- The R-format / R-shift packed word fits in the low 26 bits. -/
theorem r_pack_lt {c a b d : Nat} (hc : c < 2 ^ 6) (ha : a < 2 ^ 5) (hb : b < 2 ^ 5)
    (hd : d < 2 ^ 5) :
    c ||| (a <<< 11) ||| (b <<< 16) ||| (d <<< 21) < 2 ^ 26 := by
  apply Nat.or_lt_two_pow
  apply Nat.or_lt_two_pow
  apply Nat.or_lt_two_pow
  · exact lt_of_lt_of_le hc (Nat.pow_le_pow_right (by norm_num) (by norm_num))
  · exact shiftLeft_lt_two_pow ha (by norm_num)
  · exact shiftLeft_lt_two_pow hb (by norm_num)
  · exact shiftLeft_lt_two_pow hd (by norm_num)

/-- The R-shift packed word fits in the low 26 bits. -/
theorem shift_pack_lt {c s a b : Nat} (hc : c < 2 ^ 6) (hs : s < 2 ^ 5) (ha : a < 2 ^ 5)
    (hb : b < 2 ^ 5) :
    c ||| (s <<< 6) ||| (a <<< 11) ||| (b <<< 16) < 2 ^ 26 := by
  apply Nat.or_lt_two_pow
  apply Nat.or_lt_two_pow
  apply Nat.or_lt_two_pow
  · exact lt_of_lt_of_le hc (Nat.pow_le_pow_right (by norm_num) (by norm_num))
  · exact shiftLeft_lt_two_pow hs (by norm_num)
  · exact shiftLeft_lt_two_pow ha (by norm_num)
  · exact shiftLeft_lt_two_pow hb (by norm_num)

/-- The I-format packed word fits in 32 bits. -/
theorem i_pack_lt {m a b c : Nat} (hm : m < 2 ^ 16) (ha : a < 2 ^ 5) (hb : b < 2 ^ 5)
    (hc : c < 2 ^ 6) :
    m ||| (a <<< 16) ||| (b <<< 21) ||| (c <<< 26) < 2 ^ 32 := by
  apply Nat.or_lt_two_pow
  apply Nat.or_lt_two_pow
  apply Nat.or_lt_two_pow
  · exact lt_of_lt_of_le hm (Nat.pow_le_pow_right (by norm_num) (by norm_num))
  · exact shiftLeft_lt_two_pow ha (by norm_num)
  · exact shiftLeft_lt_two_pow hb (by norm_num)
  · exact shiftLeft_lt_two_pow hc (by norm_num)

/-- Words below `2 ^ 26` are unchanged by the final 32-bit truncation. -/
theorem mod32_of_lt26 {a : Nat} (h : a < 2 ^ 26) : a % 2 ^ 32 = a :=
  Nat.mod_eq_of_lt (lt_of_lt_of_le h (Nat.pow_le_pow_right (by norm_num) (by norm_num)))

/-- Words below `2 ^ 26` have an all-zero opcode field (bits 26–31). -/
theorem shr26_eq_zero {a : Nat} (h : a < 2 ^ 26) : a >>> 26 = 0 := by
  rw [Nat.shiftRight_eq_div_pow]
  exact Nat.div_eq_of_lt h

/-- A field shifted by at least 6 bits contributes nothing modulo `2 ^ 6`. -/
theorem shifted_mod64_eq_zero {x k : Nat} (hk : 6 ≤ k) : (x <<< k) % 2 ^ 6 = 0 := by
  rw [Nat.shiftLeft_eq]
  obtain ⟨j, rfl⟩ := Nat.exists_eq_add_of_le hk
  rw [Nat.pow_add, Nat.mul_comm (2 ^ 6) (2 ^ j), ← Nat.mul_assoc]
  exact Nat.mul_mod_left _ _

/-- A table scan of a mnemonic that occurs in no table entry falls through. -/
theorem scanTable_eq_none (token : String) :
    ∀ (ns : List String) (cs : List Nat), token ∉ ns → scanTable token ns cs = none := by
  intro ns
  induction ns with
  | nil => intro cs _; cases cs <;> rfl
  | cons n ns ih =>
    intro cs h
    cases cs with
    | nil => rfl
    | cons c cs =>
      have hn : ¬(n = token) := fun he => h (by simp [he])
      simp only [scanTable, hn, if_false]
      exact ih cs (fun hm => h (List.mem_cons_of_mem _ hm))

/-- R-format case of the encoder, for a mnemonic of funct code `c`. -/
theorem r_case (mn t1 t2 t3 : String) (c : Nat) (h : detectType mn = ⟨0, c⟩)
    (hc : c < 2 ^ 6) :
    translateL [mn, t1, t2, t3] =
      c ||| (getRegisterNum t1 <<< 11) ||| (getRegisterNum t3 <<< 16) |||
        (getRegisterNum t2 <<< 21) ∧
    translateL [mn, t1, t2, t3] >>> 26 = 0 := by
  have hb1 : getRegisterNum t1 < 2 ^ 5 := by have := getRegisterNum_lt t1; omega
  have hb2 : getRegisterNum t2 < 2 ^ 5 := by have := getRegisterNum_lt t2; omega
  have hb3 : getRegisterNum t3 < 2 ^ 5 := by have := getRegisterNum_lt t3; omega
  have hlt := r_pack_lt hc hb1 hb3 hb2
  have hword := translateL_r mn t1 t2 t3 c h
  rw [hword, mod32_of_lt26 hlt]
  exact ⟨rfl, shr26_eq_zero hlt⟩

/-- The model of `& 0xFFFF`-on-negative: for an immediate in the documented
representable range, the packed 16-bit field is the immediate's residue
modulo `2 ^ 16`. -/
theorem pattern32_mask {v : Int} (hlo : -32768 ≤ v) (hhi : v ≤ 65535) :
    pattern32 (if v < 0 then v % 65536 else v) = (v % 65536).toNat := by
  by_cases hv : v < 0
  · have h0 : (0 : Int) ≤ v % 65536 := Int.emod_nonneg v (by decide)
    have h1 : v % 65536 < 65536 := Int.emod_lt_of_pos v (by decide)
    simp only [if_pos hv, pattern32]
    rw [Int.emod_eq_of_lt h0 (by omega)]
  · push_neg at hv
    simp only [if_neg (not_lt.mpr hv), pattern32]
    rw [Int.emod_eq_of_lt hv (by omega), Int.emod_eq_of_lt hv (by omega)]

/-- The packed 16-bit immediate field is below `2 ^ 16`. -/
theorem immField_lt (v : Int) : (v % 65536).toNat < 2 ^ 16 := by
  have h1 : v % 65536 < 65536 := Int.emod_lt_of_pos v (by decide)
  omega

/-- I-format memory-op case of the encoder (`lw`/`sw`). -/
theorem i_mem_case (mn trt timm trs : String) (c : Nat) (v : Int)
    (h : detectType mn = ⟨2, c⟩) (hcm : c = 0x23 ∨ c = 0x2b) (hc : c < 2 ^ 6)
    (hv : strtol0 timm = v) (hlo : -32768 ≤ v) (hhi : v ≤ 65535) :
    translateL [mn, trt, timm, trs] =
      (v % 65536).toNat ||| (getRegisterNum trt <<< 16) ||| (getRegisterNum trs <<< 21) |||
        (c <<< 26) := by
  have hb1 : getRegisterNum trt < 2 ^ 5 := by have := getRegisterNum_lt trt; omega
  have hb2 : getRegisterNum trs < 2 ^ 5 := by have := getRegisterNum_lt trs; omega
  have hword := translateL_i_mem mn trt timm trs c h hcm
  rw [hv, pattern32_mask hlo hhi] at hword
  rw [hword, Nat.mod_eq_of_lt (i_pack_lt (immField_lt v) hb1 hb2 hc)]

/-- I-format non-memory case of the encoder. -/
theorem i_alu_case (mn trt trs timm : String) (c : Nat) (v : Int)
    (h : detectType mn = ⟨2, c⟩) (hcm : ¬(c = 0x23 ∨ c = 0x2b)) (hc : c < 2 ^ 6)
    (hv : strtol0 timm = v) (hlo : -32768 ≤ v) (hhi : v ≤ 65535) :
    translateL [mn, trt, trs, timm] =
      (v % 65536).toNat ||| (getRegisterNum trt <<< 16) ||| (getRegisterNum trs <<< 21) |||
        (c <<< 26) := by
  have hb1 : getRegisterNum trt < 2 ^ 5 := by have := getRegisterNum_lt trt; omega
  have hb2 : getRegisterNum trs < 2 ^ 5 := by have := getRegisterNum_lt trs; omega
  have hword := translateL_i_alu mn trt trs timm c h hcm
  rw [hv, pattern32_mask hlo hhi] at hword
  rw [hword, Nat.mod_eq_of_lt (i_pack_lt (immField_lt v) hb1 hb2 hc)]

/-- R-shift case of the encoder, for a shift amount whose parsed value is a
5-bit natural number. -/
theorem shift_case (mn t1 t2 sh : String) (c s : Nat) (h : detectType mn = ⟨1, c⟩)
    (hc : c < 2 ^ 6) (hs : strtol0 sh = (s : Int)) (hs31 : s < 2 ^ 5) :
    translateL [mn, t1, t2, sh] =
      c ||| (s <<< 6) ||| (getRegisterNum t1 <<< 11) ||| (getRegisterNum t2 <<< 16) ∧
    translateL [mn, t1, t2, sh] >>> 26 = 0 := by
  have hb1 : getRegisterNum t1 < 2 ^ 5 := by have := getRegisterNum_lt t1; omega
  have hb2 : getRegisterNum t2 < 2 ^ 5 := by have := getRegisterNum_lt t2; omega
  have hp : pattern32 (strtol0 sh) = s := by
    rw [hs, pattern32]
    rw [Int.emod_eq_of_lt (by omega) (by omega)]
    simp
  have hword := translateL_shift mn t1 t2 sh c h
  rw [hp] at hword
  have hlt := shift_pack_lt hc hs31 hb1 hb2
  rw [hword, mod32_of_lt26 hlt]
  exact ⟨rfl, shr26_eq_zero hlt⟩

/-- `strtol` digit recognition agrees with the standard decimal digit value. -/
theorem digitVal_dec {c : Char} (h : isDecDigit c) : digitVal 10 c = some (c.toNat - 48) := by
  obtain ⟨h1, h2⟩ := h
  have hA : 48 ≤ c.toNat ∧ c.toNat ≤ 57 := ⟨h1, h2⟩
  have hv : c.toNat - 48 < 10 := by omega
  simp [digitVal, hA, hv]

/-- `strtol` digit recognition agrees with the standard hex digit value. -/
theorem digitVal_hex {c : Char} (h : isHexDigitP c) : digitVal 16 c = some (hexDigitVal c) := by
  rcases h with ⟨h1, h2⟩ | ⟨h1, h2⟩ | ⟨h1, h2⟩
  · have hA : 48 ≤ c.toNat ∧ c.toNat ≤ 57 := ⟨h1, h2⟩
    have hv : c.toNat - 48 < 16 := by omega
    simp [digitVal, hexDigitVal, hA, hv, h2]
  · have hA : ¬(48 ≤ c.toNat ∧ c.toNat ≤ 57) := by omega
    have hB : 97 ≤ c.toNat ∧ c.toNat ≤ 122 := by omega
    have hv : c.toNat - 87 < 16 := by omega
    have hx : ¬(c.toNat ≤ 57) := by omega
    simp [digitVal, hexDigitVal, hA, hB, hv, hx, h1]
  · have hA : ¬(48 ≤ c.toNat ∧ c.toNat ≤ 57) := by omega
    have hB : ¬(97 ≤ c.toNat ∧ c.toNat ≤ 122) := by omega
    have hC : 65 ≤ c.toNat ∧ c.toNat ≤ 90 := by omega
    have hv : c.toNat - 55 < 16 := by omega
    have hx : ¬(c.toNat ≤ 57) := by omega
    have hy : ¬(97 ≤ c.toNat) := by omega
    simp [digitVal, hexDigitVal, hA, hB, hC, hv, hx, hy]

/-- The digit loop of `strtol` computes the standard left fold on an
all-decimal-digit string. -/
theorem parseDigits_decimal :
    ∀ (cs : List Char), (∀ c ∈ cs, isDecDigit c) →
      ∀ acc, parseDigits 10 acc cs = cs.foldl (fun a c => 10 * a + (c.toNat - 48)) acc := by
  intro cs
  induction cs with
  | nil => intro _ acc; rfl
  | cons c cs ih =>
    intro h acc
    have hc : isDecDigit c := h c (List.mem_cons_self c cs)
    simp only [parseDigits, digitVal_dec hc, List.foldl_cons]
    exact ih (fun x hx => h x (List.mem_cons_of_mem _ hx)) _

/-- The digit loop of `strtol` computes the standard left fold on an
all-hex-digit string. -/
theorem parseDigits_hex :
    ∀ (cs : List Char), (∀ c ∈ cs, isHexDigitP c) →
      ∀ acc, parseDigits 16 acc cs = cs.foldl (fun a c => 16 * a + hexDigitVal c) acc := by
  intro cs
  induction cs with
  | nil => intro _ acc; rfl
  | cons c cs ih =>
    intro h acc
    have hc : isHexDigitP c := h c (List.mem_cons_self c cs)
    simp only [parseDigits, digitVal_hex hc, List.foldl_cons]
    exact ih (fun x hx => h x (List.mem_cons_of_mem _ hx)) _

/-- On a decimal integer literal, `strtol(_, NULL, 0)` returns the literal's
standard value. -/
theorem strtol0_decLit {s : String} (h : isDecLit s) :
    strtol0 s = (decDigitsVal s.data : Int) := by
  obtain ⟨hne, hdig, hzero⟩ := h
  obtain ⟨d, t, hdt⟩ : ∃ d t, s.data = d :: t := by
    cases hs : s.data with
    | nil => exact absurd hs hne
    | cons d t => exact ⟨d, t, rfl⟩
  have hd : isDecDigit d := hdig d (by rw [hdt]; exact List.mem_cons_self d t)
  have hsp : isSpaceC d = false := by
    obtain ⟨h1, _⟩ := hd
    simp only [isSpaceC]
    rw [decide_eq_false (by omega : ¬(d.toNat = 32)),
      decide_eq_false (by omega : ¬(d.toNat ≤ 13))]
    simp
  have hdrop : s.data.dropWhile isSpaceC = d :: t := by
    rw [hdt, List.dropWhile_cons, hsp]; rfl
  have hminus : ¬(d = '-') := fun he => absurd (he ▸ hd) (by decide)
  have hplus : ¬(d = '+') := fun he => absurd (he ▸ hd) (by decide)
  simp only [strtol0, hdrop, if_neg hminus, if_neg hplus]
  by_cases h0 : d = '0'
  · have : s.data = ['0'] := hzero (by rw [hdt, h0]; rfl)
    have ht : t = [] := by
      rw [hdt] at this
      injection this with _ h2
    subst h0 ht
    rw [hdt]
    decide
  · have : strtolMag (d :: t) = parseDigits 10 0 (d :: t) := by
      simp only [strtolMag, if_neg h0]
    rw [this, parseDigits_decimal (d :: t) (by rw [← hdt]; exact hdig) 0, hdt, decDigitsVal]

/-- On a `0x`-prefixed hexadecimal literal, `strtol(_, NULL, 0)` returns the
literal's standard value. -/
theorem strtol0_hexLit {s : String} (h : isHexLit s) :
    strtol0 s = (hexLitVal s : Int) := by
  obtain ⟨ds, hdata, hne, hdig⟩ := h
  obtain ⟨c2, rest, hds⟩ : ∃ c2 rest, ds = c2 :: rest := by
    cases hs : ds with
    | nil => exact absurd hs hne
    | cons c2 rest => exact ⟨c2, rest, rfl⟩
  have hsp0 : isSpaceC '0' = false := by decide
  have hdrop : s.data.dropWhile isSpaceC = '0' :: 'x' :: ds := by
    rw [hdata, List.dropWhile_cons, hsp0]; rfl
  have hc2 : isHexDigitP c2 := hdig c2 (by rw [hds]; exact List.mem_cons_self _ _)
  have hmag : strtolMag ('0' :: 'x' :: ds) = parseDigits 16 0 ds := by
    rw [hds]
    simp [strtolMag, digitVal_hex hc2]
  simp only [strtol0, hdrop, if_neg (by decide : ¬('0' = '-')),
    if_neg (by decide : ¬('0' = '+'))]
  rw [hmag, parseDigits_hex ds hdig 0, hexLitVal, hdata]
  simp [hexDigitsVal]

/-- The low 6 bits of an R-format packed word are the funct code. -/
theorem r_pack_mod64 (c a b d : Nat) (hc : c < 2 ^ 6) :
    (c ||| (a <<< 11) ||| (b <<< 16) ||| (d <<< 21)) % 2 ^ 6 = c := by
  rw [or_mod_two_pow, or_mod_two_pow, or_mod_two_pow,
    shifted_mod64_eq_zero (by norm_num), shifted_mod64_eq_zero (by norm_num),
    shifted_mod64_eq_zero (by norm_num), Nat.mod_eq_of_lt hc]
  simp

/-- The low 6 bits of an R-shift packed word are the funct code. -/
theorem shift_pack_mod64 (c s a b : Nat) (hc : c < 2 ^ 6) :
    (c ||| (s <<< 6) ||| (a <<< 11) ||| (b <<< 16)) % 2 ^ 6 = c := by
  rw [or_mod_two_pow, or_mod_two_pow, or_mod_two_pow,
    shifted_mod64_eq_zero (by norm_num), shifted_mod64_eq_zero (by norm_num),
    shifted_mod64_eq_zero (by norm_num), Nat.mod_eq_of_lt hc]
  simp

/-- The top 6 bits of an I-format packed word are the opcode. -/
theorem i_pack_shr26 (m a b c : Nat) (hm : m < 2 ^ 16) (ha : a < 2 ^ 5) (hb : b < 2 ^ 5) :
    (m ||| (a <<< 16) ||| (b <<< 21) ||| (c <<< 26)) >>> 26 = c := by
  rw [or_shiftRight, or_shiftRight, or_shiftRight,
    shr26_eq_zero (lt_of_lt_of_le hm (Nat.pow_le_pow_right (by norm_num) (by norm_num))),
    shr26_eq_zero (shiftLeft_lt_two_pow ha (by norm_num)),
    shr26_eq_zero (shiftLeft_lt_two_pow hb (by norm_num)),
    Nat.shiftLeft_eq, Nat.shiftRight_eq_div_pow,
    Nat.mul_div_cancel _ (Nat.pos_pow_of_pos 26 (by norm_num))]
  simp

/-- Claim C1: for every R-format mnemonic (add, sub, and, or, nor) and any
three register-name operand tokens, `translate` returns
`funct ||| (rd <<< 11) ||| (rt <<< 16) ||| (rs <<< 21)` where `rd`, `rs`,
`rt` are the resolved indices of `tokens[1]`, `tokens[2]`, `tokens[3]`, and
the opcode field (bits 26–31) of the result is 0. -/
theorem C1_r_format_encoding (mn t1 t2 t3 : String)
    (hmn : mn ∈ r_instructions) (h1 : t1 ∈ registers) (h2 : t2 ∈ registers)
    (h3 : t3 ∈ registers) :
    translateL [mn, t1, t2, t3] =
      (detectType mn).opcode ||| (getRegisterNum t1 <<< 11) ||| (getRegisterNum t3 <<< 16) |||
        (getRegisterNum t2 <<< 21) ∧
    translateL [mn, t1, t2, t3] >>> 26 = 0 := by
  fin_cases hmn
  · exact r_case "add" t1 t2 t3 0x20 (by decide) (by norm_num)
  · exact r_case "sub" t1 t2 t3 0x22 (by decide) (by norm_num)
  · exact r_case "and" t1 t2 t3 0x24 (by decide) (by norm_num)
  · exact r_case "or" t1 t2 t3 0x25 (by decide) (by norm_num)
  · exact r_case "nor" t1 t2 t3 0x27 (by decide) (by norm_num)

/-- Witness for C1 at `add t0 t1 t2`. -/
theorem C1_r_format_encoding_witness :
    translateL ["add", "t0", "t1", "t2"] =
      (detectType "add").opcode ||| (getRegisterNum "t0" <<< 11) |||
        (getRegisterNum "t2" <<< 16) ||| (getRegisterNum "t1" <<< 21) ∧
    translateL ["add", "t0", "t1", "t2"] >>> 26 = 0 :=
  C1_r_format_encoding "add" "t0" "t1" "t2" (by decide) (by decide) (by decide) (by decide)

/-- Claim C2: for every I-format instruction with an immediate in the range
−32768..65535, the token order is `[mnemonic, rt, immediate, rs]` for `lw`
and `sw` and `[mnemonic, rt, rs, immediate]` for the others; the immediate
is parsed as a signed integer and, when negative, masked to 16 bits, and the
word is `(imm & 0xFFFF) ||| (rt <<< 16) ||| (rs <<< 21) ||| (opcode <<< 26)`
(the 16-bit field being the residue of the immediate modulo `2 ^ 16`). -/
theorem C2_i_format_encoding (mn trt trs timm : String) (v : Int)
    (h1 : trt ∈ registers) (h2 : trs ∈ registers)
    (hv : strtol0 timm = v) (hlo : -32768 ≤ v) (hhi : v ≤ 65535) :
    (mn ∈ ["lw", "sw"] →
      translateL [mn, trt, timm, trs] =
        (v % 65536).toNat ||| (getRegisterNum trt <<< 16) ||| (getRegisterNum trs <<< 21) |||
          ((detectType mn).opcode <<< 26)) ∧
    (mn ∈ ["addi", "andi", "ori", "beq", "bne"] →
      translateL [mn, trt, trs, timm] =
        (v % 65536).toNat ||| (getRegisterNum trt <<< 16) ||| (getRegisterNum trs <<< 21) |||
          ((detectType mn).opcode <<< 26)) := by
  constructor
  · intro hmn
    fin_cases hmn
    · exact i_mem_case "lw" trt timm trs 0x23 v (by decide) (by decide) (by norm_num) hv hlo hhi
    · exact i_mem_case "sw" trt timm trs 0x2b v (by decide) (by decide) (by norm_num) hv hlo hhi
  · intro hmn
    fin_cases hmn
    · exact i_alu_case "addi" trt trs timm 0x08 v (by decide) (by decide) (by norm_num) hv hlo hhi
    · exact i_alu_case "andi" trt trs timm 0x0c v (by decide) (by decide) (by norm_num) hv hlo hhi
    · exact i_alu_case "ori" trt trs timm 0x0d v (by decide) (by decide) (by norm_num) hv hlo hhi
    · exact i_alu_case "beq" trt trs timm 0x04 v (by decide) (by decide) (by norm_num) hv hlo hhi
    · exact i_alu_case "bne" trt trs timm 0x05 v (by decide) (by decide) (by norm_num) hv hlo hhi

/-- Witness for C2 at `lw t0 4 sp` and `addi t0 t1 -1`. -/
theorem C2_i_format_encoding_witness :
    translateL ["lw", "t0", "4", "sp"] =
      ((4 : Int) % 65536).toNat ||| (getRegisterNum "t0" <<< 16) |||
        (getRegisterNum "sp" <<< 21) ||| ((detectType "lw").opcode <<< 26) ∧
    translateL ["addi", "t0", "t1", "-1"] =
      ((-1 : Int) % 65536).toNat ||| (getRegisterNum "t0" <<< 16) |||
        (getRegisterNum "t1" <<< 21) ||| ((detectType "addi").opcode <<< 26) :=
  ⟨(C2_i_format_encoding "lw" "t0" "sp" "4" 4 (by decide) (by decide) (by decide)
      (by decide) (by decide)).1 (by decide),
   (C2_i_format_encoding "addi" "t0" "t1" "-1" (-1) (by decide) (by decide) (by decide)
      (by decide) (by decide)).2 (by decide)⟩

/-- Claim C3: for every R-shift mnemonic (sll, srl, sra) with
`tokens = [mnemonic, rd, rt, shamt]` where the shift amount token is a
decimal or `0x`-prefixed hex integer literal with value 0–31, `translate`
returns `funct ||| (shamt <<< 6) ||| (rd <<< 11) ||| (rt <<< 16)` with
opcode field 0. -/
theorem C3_r_shift_encoding (mn t1 t2 sh : String) (s : Nat)
    (hmn : mn ∈ r_shift_instructions) (h1 : t1 ∈ registers) (h2 : t2 ∈ registers)
    (hlit : (isDecLit sh ∧ decDigitsVal sh.data = s) ∨ (isHexLit sh ∧ hexLitVal sh = s))
    (hs : s ≤ 31) :
    translateL [mn, t1, t2, sh] =
      (detectType mn).opcode ||| (s <<< 6) ||| (getRegisterNum t1 <<< 11) |||
        (getRegisterNum t2 <<< 16) ∧
    translateL [mn, t1, t2, sh] >>> 26 = 0 := by
  have hv : strtol0 sh = (s : Int) := by
    rcases hlit with ⟨hl, hval⟩ | ⟨hl, hval⟩
    · rw [strtol0_decLit hl, hval]
    · rw [strtol0_hexLit hl, hval]
  have hs31 : s < 2 ^ 5 := by omega
  fin_cases hmn
  · exact shift_case "sll" t1 t2 sh 0x00 s (by decide) (by norm_num) hv hs31
  · exact shift_case "srl" t1 t2 sh 0x02 s (by decide) (by norm_num) hv hs31
  · exact shift_case "sra" t1 t2 sh 0x03 s (by decide) (by norm_num) hv hs31

/-- Witness for C3 at `sll t0 t1 2` and (via the hex form) `sra t0 t1 0x1f`. -/
theorem C3_r_shift_encoding_witness :
    (translateL ["sll", "t0", "t1", "2"] =
      (detectType "sll").opcode ||| (2 <<< 6) ||| (getRegisterNum "t0" <<< 11) |||
        (getRegisterNum "t1" <<< 16) ∧
     translateL ["sll", "t0", "t1", "2"] >>> 26 = 0) ∧
    (translateL ["sra", "t0", "t1", "0x1f"] =
      (detectType "sra").opcode ||| (31 <<< 6) ||| (getRegisterNum "t0" <<< 11) |||
        (getRegisterNum "t1" <<< 16) ∧
     translateL ["sra", "t0", "t1", "0x1f"] >>> 26 = 0) :=
  ⟨C3_r_shift_encoding "sll" "t0" "t1" "2" 2 (by decide) (by decide) (by decide)
      (Or.inl ⟨by decide, by decide⟩) (by decide),
   C3_r_shift_encoding "sra" "t0" "t1" "0x1f" 31 (by decide) (by decide) (by decide)
      (Or.inr ⟨⟨['1', 'f'], by decide, by decide, by decide⟩, by decide⟩) (by decide)⟩

/-- Claim C4: the instruction table maps exactly the 15 supported mnemonics
to the documented codes, every other token classifies as unknown, and for
every supported mnemonic with syntactically valid operands the translated
word's low 6 bits equal the funct code with top 6 bits 0 (R and R-shift),
while the top 6 bits equal the opcode (I-format). -/
theorem C4_instruction_table :
    (detectType "add" = ⟨0, 0x20⟩ ∧ detectType "sub" = ⟨0, 0x22⟩ ∧
      detectType "and" = ⟨0, 0x24⟩ ∧ detectType "or" = ⟨0, 0x25⟩ ∧
      detectType "nor" = ⟨0, 0x27⟩ ∧ detectType "sll" = ⟨1, 0x00⟩ ∧
      detectType "srl" = ⟨1, 0x02⟩ ∧ detectType "sra" = ⟨1, 0x03⟩ ∧
      detectType "addi" = ⟨2, 0x08⟩ ∧ detectType "andi" = ⟨2, 0x0c⟩ ∧
      detectType "ori" = ⟨2, 0x0d⟩ ∧ detectType "lw" = ⟨2, 0x23⟩ ∧
      detectType "sw" = ⟨2, 0x2b⟩ ∧ detectType "beq" = ⟨2, 0x04⟩ ∧
      detectType "bne" = ⟨2, 0x05⟩) ∧
    (∀ s : String, s ∉ r_instructions → s ∉ r_shift_instructions → s ∉ i_instructions →
      (detectType s).type = -1) ∧
    (∀ mn t1 t2 t3 : String, mn ∈ r_instructions → t1 ∈ registers → t2 ∈ registers →
      t3 ∈ registers →
      translateL [mn, t1, t2, t3] % 2 ^ 6 = (detectType mn).opcode ∧
      translateL [mn, t1, t2, t3] >>> 26 = 0) ∧
    (∀ mn t1 t2 sh : String, ∀ s : Nat, mn ∈ r_shift_instructions → t1 ∈ registers →
      t2 ∈ registers → strtol0 sh = (s : Int) → s ≤ 31 →
      translateL [mn, t1, t2, sh] % 2 ^ 6 = (detectType mn).opcode ∧
      translateL [mn, t1, t2, sh] >>> 26 = 0) ∧
    (∀ mn trt trs timm : String, ∀ v : Int, mn ∈ i_instructions → trt ∈ registers →
      trs ∈ registers → strtol0 timm = v → -32768 ≤ v → v ≤ 65535 →
      ((mn = "lw" ∨ mn = "sw") →
        translateL [mn, trt, timm, trs] >>> 26 = (detectType mn).opcode) ∧
      (¬(mn = "lw" ∨ mn = "sw") →
        translateL [mn, trt, trs, timm] >>> 26 = (detectType mn).opcode)) := by
  refine ⟨by decide, ?_, ?_, ?_, ?_⟩
  · intro s h1 h2 h3
    simp [detectType, scanTable_eq_none s r_instructions r_funct h1,
      scanTable_eq_none s r_shift_instructions r_shift_funct h2,
      scanTable_eq_none s i_instructions i_opcodes h3]
  · intro mn t1 t2 t3 hmn _ _ _
    fin_cases hmn
    · obtain ⟨hw, hz⟩ := r_case "add" t1 t2 t3 0x20 (by decide) (by norm_num)
      exact ⟨by rw [hw, r_pack_mod64 _ _ _ _ (by norm_num)]; rfl, hz⟩
    · obtain ⟨hw, hz⟩ := r_case "sub" t1 t2 t3 0x22 (by decide) (by norm_num)
      exact ⟨by rw [hw, r_pack_mod64 _ _ _ _ (by norm_num)]; rfl, hz⟩
    · obtain ⟨hw, hz⟩ := r_case "and" t1 t2 t3 0x24 (by decide) (by norm_num)
      exact ⟨by rw [hw, r_pack_mod64 _ _ _ _ (by norm_num)]; rfl, hz⟩
    · obtain ⟨hw, hz⟩ := r_case "or" t1 t2 t3 0x25 (by decide) (by norm_num)
      exact ⟨by rw [hw, r_pack_mod64 _ _ _ _ (by norm_num)]; rfl, hz⟩
    · obtain ⟨hw, hz⟩ := r_case "nor" t1 t2 t3 0x27 (by decide) (by norm_num)
      exact ⟨by rw [hw, r_pack_mod64 _ _ _ _ (by norm_num)]; rfl, hz⟩
  · intro mn t1 t2 sh s hmn _ _ hv hs
    have hs31 : s < 2 ^ 5 := by omega
    fin_cases hmn
    · obtain ⟨hw, hz⟩ := shift_case "sll" t1 t2 sh 0x00 s (by decide) (by norm_num) hv hs31
      exact ⟨by rw [hw, shift_pack_mod64 _ _ _ _ (by norm_num)]; rfl, hz⟩
    · obtain ⟨hw, hz⟩ := shift_case "srl" t1 t2 sh 0x02 s (by decide) (by norm_num) hv hs31
      exact ⟨by rw [hw, shift_pack_mod64 _ _ _ _ (by norm_num)]; rfl, hz⟩
    · obtain ⟨hw, hz⟩ := shift_case "sra" t1 t2 sh 0x03 s (by decide) (by norm_num) hv hs31
      exact ⟨by rw [hw, shift_pack_mod64 _ _ _ _ (by norm_num)]; rfl, hz⟩
  · intro mn trt trs timm v hmn h1 h2 hv hlo hhi
    have hb1 : getRegisterNum trt < 2 ^ 5 := by have := getRegisterNum_lt trt; omega
    have hb2 : getRegisterNum trs < 2 ^ 5 := by have := getRegisterNum_lt trs; omega
    have hm := immField_lt v
    fin_cases hmn
    · refine ⟨fun h => absurd h (by decide), fun _ => ?_⟩
      rw [i_alu_case "addi" trt trs timm 0x08 v (by decide) (by decide) (by norm_num) hv hlo hhi]
      exact i_pack_shr26 _ _ _ _ hm hb1 hb2
    · refine ⟨fun h => absurd h (by decide), fun _ => ?_⟩
      rw [i_alu_case "andi" trt trs timm 0x0c v (by decide) (by decide) (by norm_num) hv hlo hhi]
      exact i_pack_shr26 _ _ _ _ hm hb1 hb2
    · refine ⟨fun h => absurd h (by decide), fun _ => ?_⟩
      rw [i_alu_case "ori" trt trs timm 0x0d v (by decide) (by decide) (by norm_num) hv hlo hhi]
      exact i_pack_shr26 _ _ _ _ hm hb1 hb2
    · refine ⟨fun _ => ?_, fun h => absurd (Or.inl rfl) h⟩
      rw [i_mem_case "lw" trt timm trs 0x23 v (by decide) (by decide) (by norm_num) hv hlo hhi]
      exact i_pack_shr26 _ _ _ _ hm hb1 hb2
    · refine ⟨fun _ => ?_, fun h => absurd (Or.inr rfl) h⟩
      rw [i_mem_case "sw" trt timm trs 0x2b v (by decide) (by decide) (by norm_num) hv hlo hhi]
      exact i_pack_shr26 _ _ _ _ hm hb1 hb2
    · refine ⟨fun h => absurd h (by decide), fun _ => ?_⟩
      rw [i_alu_case "beq" trt trs timm 0x04 v (by decide) (by decide) (by norm_num) hv hlo hhi]
      exact i_pack_shr26 _ _ _ _ hm hb1 hb2
    · refine ⟨fun h => absurd h (by decide), fun _ => ?_⟩
      rw [i_alu_case "bne" trt trs timm 0x05 v (by decide) (by decide) (by norm_num) hv hlo hhi]
      exact i_pack_shr26 _ _ _ _ hm hb1 hb2

/-- Witness for C4: an unknown mnemonic, and one line of each format. -/
theorem C4_instruction_table_witness :
    (detectType "xyz").type = -1 ∧
    (translateL ["add", "t0", "t1", "t2"] % 2 ^ 6 = (detectType "add").opcode ∧
      translateL ["add", "t0", "t1", "t2"] >>> 26 = 0) ∧
    (translateL ["sll", "t0", "t1", "2"] % 2 ^ 6 = (detectType "sll").opcode ∧
      translateL ["sll", "t0", "t1", "2"] >>> 26 = 0) ∧
    translateL ["lw", "t0", "4", "sp"] >>> 26 = (detectType "lw").opcode ∧
    translateL ["addi", "t0", "t1", "-1"] >>> 26 = (detectType "addi").opcode :=
  ⟨C4_instruction_table.2.1 "xyz" (by decide) (by decide) (by decide),
   C4_instruction_table.2.2.1 "add" "t0" "t1" "t2" (by decide) (by decide) (by decide)
     (by decide),
   C4_instruction_table.2.2.2.1 "sll" "t0" "t1" "2" 2 (by decide) (by decide) (by decide)
     (by decide) (by decide),
   (C4_instruction_table.2.2.2.2 "lw" "t0" "sp" "4" 4 (by decide) (by decide) (by decide)
     (by decide) (by decide) (by decide)).1 (by decide),
   (C4_instruction_table.2.2.2.2 "addi" "t0" "t1" "-1" (-1) (by decide) (by decide)
     (by decide) (by decide) (by decide) (by decide)).2 (by decide)⟩

/-- Claim C5 (evaluation of the actual table): the source's register table
holds `"k1"` at index 26 and `"k2"` at index 27, contains no entry `"k0"`,
and `getRegisterNum "k0"` silently evaluates to 0 while `"k1"` resolves to
26 — contradicting the claimed canonical mapping k0 → 26, k1 → 27. -/
theorem C5_register_table_k1_k2 :
    registers.getD 26 "" = "k1" ∧ registers.getD 27 "" = "k2" ∧ "k0" ∉ registers ∧
    getRegisterNum "k0" = 0 ∧ getRegisterNum "k1" = 26 ∧ registers.length = 32 ∧
    registers.Nodup := by decide

/-- Claim C6 (evaluation of the code): on the unknown mnemonic line
`foo a b c`, `translate` does produce the numeric word 0, rather than
failing with a distinct UnknownMnemonic error (no error channel exists in
the code's return type). -/
theorem C6_unknown_mnemonic_word : translateL ["foo", "a", "b", "c"] = 0 := by decide

/-- Claim C7 (evaluation of the code): a token that names no register, such
as `"q7"`, is silently resolved to index 0 by `getRegisterNum` — the same
value returned for the register `zero` — instead of a distinct
UnknownRegister failure. -/
theorem C7_unknown_register_returns_zero :
    "q7" ∉ registers ∧ getRegisterNum "q7" = 0 ∧ getRegisterNum "zero" = 0 := by decide

/-- Claim C8 counterexample: the word encoded for `add t0 t1 t2` is not the
spec's stated constant 0x294C020. -/
theorem C8_spec_word_value_wrong :
    translateL ["add", "t0", "t1", "t2"] ≠ 0x294C020 := by decide

/-- Claim C8 as amended: `add t0 t1 t2` resolves rd=t0=8, rs=t1=9, rt=t2=10
and encodes to `0x20 ||| (8 <<< 11) ||| (10 <<< 16) ||| (9 <<< 21)`, whose
value is 0x12A4020. -/
theorem C8_add_t0_t1_t2 :
    getRegisterNum "t0" = 8 ∧ getRegisterNum "t1" = 9 ∧ getRegisterNum "t2" = 10 ∧
    translateL ["add", "t0", "t1", "t2"] = (0x20 ||| (8 <<< 11) ||| (10 <<< 16) ||| (9 <<< 21)) ∧
    translateL ["add", "t0", "t1", "t2"] = 0x12A4020 := by decide

/-- Claim C9 (evaluation of the code): `translate` performs no arity check —
called with `nr_tokens = 1` on the lone token `add`, its result depends on
the token-array contents beyond index 0, so the operand positions are read
without being validated (and no InsufficientOperands failure exists). -/
theorem C9_translate_ignores_arity :
    (fun i => List.getD ["add"] i "t0") 0 = (fun i => List.getD ["add"] i "t1") 0 ∧
    translate 1 (fun i => List.getD ["add"] i "t0") ≠
      translate 1 (fun i => List.getD ["add"] i "t1") := by decide

/-- Claim C10: whenever the first token matches no mnemonic in any of the
three instruction tables, `translate` returns exactly the word 0x00000000
(the initial value of its accumulator), regardless of the remaining
tokens. -/
theorem C10_unknown_mnemonic_zero (nr_tokens : Nat) (tokens : Nat → String)
    (h1 : tokens 0 ∉ r_instructions) (h2 : tokens 0 ∉ r_shift_instructions)
    (h3 : tokens 0 ∉ i_instructions) :
    translate nr_tokens tokens = 0 := by
  have hd : detectType (tokens 0) = ⟨-1, 0⟩ := by
    simp [detectType, scanTable_eq_none (tokens 0) r_instructions r_funct h1,
      scanTable_eq_none (tokens 0) r_shift_instructions r_shift_funct h2,
      scanTable_eq_none (tokens 0) i_instructions i_opcodes h3]
  simp [translate, hd]

/-- Witness for C10 at the token line `bar t0 t1 t2`. -/
theorem C10_unknown_mnemonic_zero_witness :
    translate 4 (fun i => List.getD ["bar", "t0", "t1", "t2"] i "") = 0 :=
  C10_unknown_mnemonic_zero 4 _ (by decide) (by decide) (by decide)

end PA1
